import Mathlib

/-!
Verification development for the san-resolver repository (src/san-resolver.go).

The Go program is shallowly embedded: pure helpers become Lean functions,
the network is an explicit oracle, and the concurrent pipeline becomes a
sequential function parameterised by a scheduling oracle that decides, per
input line, which select branch fired.  Machine-level details that the
program never exercises (for instance RFC 5952 zero-compression when
rendering IPv6 addresses) are simplified where this provably cannot change
any behaviour the theorems talk about; each such simplification is noted in
the doc comment of the definition concerned.
-/

namespace SanResolver

/-! ## Characters, digits and base conversion -/

/-- Decimal/hex digit character for a value below 16 (lowercase hex, as Go
`net.IP.String` produces).  Values of 16 or more never occur at call sites. -/
def digitCh : Nat → Char
  | 0 => '0' | 1 => '1' | 2 => '2' | 3 => '3' | 4 => '4'
  | 5 => '5' | 6 => '6' | 7 => '7' | 8 => '8' | 9 => '9'
  | 10 => 'a' | 11 => 'b' | 12 => 'c' | 13 => 'd' | 14 => 'e' | 15 => 'f'
  | _ => '0'

/-- Numeric value of a digit character, models Go's `xtoi`/`dtoi` digit step.
Non-digit characters are mapped to 0; validity is checked separately. -/
def digitVal (c : Char) : Nat :=
  if c.toNat ≥ 48 ∧ c.toNat ≤ 57 then c.toNat - 48
  else if c.toNat ≥ 97 ∧ c.toNat ≤ 102 then c.toNat - 87
  else if c.toNat ≥ 65 ∧ c.toNat ≤ 70 then c.toNat - 55
  else 0

def isHexDigitCh (c : Char) : Bool :=
  (48 ≤ c.toNat ∧ c.toNat ≤ 57) ∨ (97 ≤ c.toNat ∧ c.toNat ≤ 102) ∨
    (65 ≤ c.toNat ∧ c.toNat ≤ 70)

/-- Digits of `n` in the given base, most significant first; empty for 0.
Fuel-structured recursion; fuel 8 covers every value the program produces
(IPv4 octets below 10^8, IPv6 groups below 16^8). -/
def natToDigits (base : Nat) : Nat → Nat → List Char
  | 0, _ => []
  | fuel + 1, n => if n = 0 then [] else natToDigits base fuel (n / base) ++ [digitCh (n % base)]

/-- Rendering of `n` in the given base (so `natRepr 10 0 = ['0']`). -/
def natRepr (base : Nat) (n : Nat) : List Char :=
  if n = 0 then ['0'] else natToDigits base 8 n

/-- Value of a digit string, most significant first. -/
def digitsVal (base : Nat) (cs : List Char) : Nat :=
  cs.foldl (fun a c => a * base + digitVal c) 0

/-! ## IP addresses

Models Go `net.IP` restricted to what this program handles.  Go represents
an IPv4 address either as a 4-byte slice or as a 16-byte IPv4-mapped slice;
`String`, string comparison, `ParseIP` round trips and `IPNet.Contains`
treat the two identically (via `To4`), so the embedding collapses both into
the `v4` constructor.  The `v6` constructor holds the eight 16-bit groups of
a 16-byte address. -/

inductive IP where
  | v4 (a b c d : Nat)
  | v6 (gs : List Nat)
deriving DecidableEq

/-- Go `IP.To4` on a 16-byte address: `some (hi, lo)` when the groups are
the IPv4-mapped pattern `0,0,0,0,0,0xffff,hi,lo`. -/
def mappedV4 : List Nat → Option (Nat × Nat)
  | [0, 0, 0, 0, 0, g5, hi, lo] => if g5 = 65535 then some (hi, lo) else none
  | _ => none

/-- A genuine IPv6 address: 16-byte form whose `To4` is nil. -/
def IP.isPureV6 : IP → Prop
  | .v4 _ _ _ _ => False
  | .v6 gs => mappedV4 gs = none

instance : DecidablePred IP.isPureV6 := by
  intro ip
  cases ip with
  | v4 a b c d => exact isFalse (fun h => h)
  | v6 gs => exact inferInstanceAs (Decidable (mappedV4 gs = none))

/-- Well-formed group list of a 16-byte address: eight groups below 2^16. -/
def wfGroups (gs : List Nat) : Prop := gs.length = 8 ∧ ∀ g ∈ gs, g < 65536

instance : DecidablePred wfGroups := fun gs =>
  inferInstanceAs (Decidable (gs.length = 8 ∧ ∀ g ∈ gs, g < 65536))

def ipv4Chars (a b c d : Nat) : List Char :=
  natRepr 10 a ++ '.' :: natRepr 10 b ++ '.' :: natRepr 10 c ++ '.' :: natRepr 10 d

/-- Join character lists with a separator character. -/
def joinSep (sep : Char) : List (List Char) → List Char
  | [] => []
  | [p] => p
  | p :: q :: rest => p ++ sep :: joinSep sep (q :: rest)

/-- Models Go `net.IP.String` on the addresses this program produces:
dotted quad for IPv4 (and IPv4-mapped) addresses, colon-separated lowercase
hex groups for IPv6.  Deviation from Go: RFC 5952 zero-compression is not
performed; both renderings are injective, contain a colon exactly when the
address is genuine IPv6, and parse back to the same address, which is all
any theorem below depends on. -/
def IP.toChars : IP → List Char
  | .v4 a b c d => ipv4Chars a b c d
  | .v6 gs =>
    match mappedV4 gs with
    | some (hi, lo) => ipv4Chars (hi / 256) (hi % 256) (lo / 256) (lo % 256)
    | none => joinSep ':' (gs.map (natRepr 16))

def IP.toStr (ip : IP) : String := String.mk ip.toChars

/-! ## Parsing IP addresses (models Go `net.ParseIP`) -/

/-- Split a character list on a separator character; models Go
`strings.Split` / the field splitting loops in `net`'s address parsers. -/
def splitOnCh (sep : Char) : List Char → List (List Char)
  | [] => [[]]
  | c :: rest =>
    if c = sep then [] :: splitOnCh sep rest
    else
      match splitOnCh sep rest with
      | [] => [[c]]
      | p :: ps => (c :: p) :: ps

/-- One dotted-quad field, Go 1.17+ rules as in `net.ParseIP`: one to three
decimal digits, no leading zero, value at most 255. -/
def parseDecField (cs : List Char) : Option Nat :=
  if cs = [] then none
  else if ¬ cs.all Char.isDigit then none
  else if cs.length > 3 then none
  else if cs.head? = some '0' ∧ cs.length > 1 then none
  else
    let v := digitsVal 10 cs
    if v ≤ 255 then some v else none

/-- One IPv6 hex group: one to four hex digits. -/
def parseHexField (cs : List Char) : Option Nat :=
  if cs = [] then none
  else if cs.length > 4 then none
  else if ¬ cs.all isHexDigitCh then none
  else some (digitsVal 16 cs)

def parseIPv4Chars (cs : List Char) : Option IP :=
  match splitOnCh '.' cs with
  | [f1, f2, f3, f4] => do
    let a ← parseDecField f1
    let b ← parseDecField f2
    let c ← parseDecField f3
    let d ← parseDecField f4
    some (.v4 a b c d)
  | _ => none

/-- Parse every hex group, failing if any group fails. -/
def parseFields : List (List Char) → Option (List Nat)
  | [] => some []
  | f :: rest => do
    let g ← parseHexField f
    let gs ← parseFields rest
    some (g :: gs)

/-- Full-form IPv6 parser: eight colon-separated hex groups.  Deviation from
Go: `::` compression and embedded dotted quads are not handled; the program
only ever parses strings it rendered itself (which are full-form) or host
literals returned by `LookupHost` (for which the theorems below use
dotted-quad witnesses), so the restriction is invisible.  An IPv4-mapped
group pattern is normalised to `v4`, mirroring Go's `To4` coercion. -/
def parseIPv6Chars (cs : List Char) : Option IP :=
  let fields := splitOnCh ':' cs
  if fields.length = 8 then
    match parseFields fields with
    | none => none
    | some gs =>
      match mappedV4 gs with
      | some (hi, lo) => some (.v4 (hi / 256) (hi % 256) (lo / 256) (lo % 256))
      | none => some (.v6 gs)
  else none

/-- First occurrence of '.' or ':', models the dispatch loop of
Go `net.ParseIP`. -/
def firstSpecial : List Char → Option Char
  | [] => none
  | c :: rest => if c = '.' ∨ c = ':' then some c else firstSpecial rest

/-- Models Go `net.ParseIP` (see `parseIPv6Chars` for the documented domain
restriction): the first '.' or ':' selects the family (`firstSpecial` only
ever returns one of those two characters). -/
def parseIP (s : String) : Option IP :=
  match firstSpecial s.data with
  | some c => if c = '.' then parseIPv4Chars s.data else parseIPv6Chars s.data
  | none => none

/-! ## CIDR networks (models Go `net.ParseCIDR` and `IPNet.Contains`) -/

/-- An IPv4 network: 32-bit network number (already masked) and prefix
length. -/
structure V4Net where
  base : Nat
  bits : Nat
deriving DecidableEq

def v4ToNat (a b c d : Nat) : Nat := ((a * 256 + b) * 256 + c) * 256 + d

def maskBits (bits addr : Nat) : Nat := addr / 2 ^ (32 - bits) * 2 ^ (32 - bits)

/-- Prefix length field of a CIDR string: decimal, no leading zero, at most
32 (Go `dtoi` plus the length check in `ParseCIDR`). -/
def parseMaskLen (cs : List Char) : Option Nat :=
  if cs = [] then none
  else if ¬ cs.all Char.isDigit then none
  else if cs.head? = some '0' ∧ cs.length > 1 then none
  else
    let v := digitsVal 10 cs
    if v ≤ 32 then some v else none

/-- Models Go `net.ParseCIDR` restricted to IPv4 prefixes, the only kind the
program's table contains (a v6 prefix would parse in Go but is treated as
unparseable here; no call site is affected, as the theorems check). -/
def parseCIDR (s : String) : Option V4Net :=
  match splitOnCh '/' s.data with
  | [ipPart, maskPart] => do
    let ip ← parseIPv4Chars ipPart
    let n ← parseMaskLen maskPart
    match ip with
    | .v4 a b c d => some ⟨maskBits n (v4ToNat a b c d), n⟩
    | .v6 _ => none
  | _ => none

/-- Models Go `IPNet.Contains` for an IPv4 network: `To4` coercion first
(handled by the collapsed `v4` representation and the mapped check), then a
length mismatch makes a genuine IPv6 address never match. -/
def v4netContains (net : V4Net) (ip : IP) : Bool :=
  match ip with
  | .v4 a b c d => maskBits net.bits (v4ToNat a b c d) = net.base
  | .v6 gs =>
    match mappedV4 gs with
    | some (hi, lo) => maskBits net.bits (v4ToNat (hi / 256) (hi % 256) (lo / 256) (lo % 256)) = net.base
    | none => false

/-! ## The CDN range table (src/san-resolver.go lines 26-60)

Go stores this as `map[string][]string`; iteration order over a Go map is
randomized, so every function that iterates the table takes the iteration
order as an explicit parameter constrained to be a permutation of this
association list (which lists the entries in source-text order). -/

def cdnProvidersList : List (String × List String) :=
  [("cloudflare",
    ["173.245.48.0/20", "103.21.244.0/22", "103.22.200.0/22",
     "103.31.4.0/22", "141.101.64.0/18", "108.162.192.0/18",
     "190.93.240.0/20", "188.114.96.0/20", "197.234.240.0/22",
     "198.41.128.0/17", "162.158.0.0/15", "104.16.0.0/13",
     "104.24.0.0/14", "172.64.0.0/13", "131.0.72.0/22"]),
   ("cloudfront",
    ["52.84.0.0/15", "54.230.0.0/16", "54.239.128.0/18",
     "99.84.0.0/16", "205.251.192.0/19", "54.239.192.0/19",
     "70.132.0.0/18", "13.32.0.0/15", "13.35.0.0/16",
     "204.246.164.0/22", "204.246.168.0/22", "71.152.0.0/17"]),
   ("aws_global_accelerator",
    ["75.2.0.0/16", "99.77.0.0/16", "99.83.0.0/16",
     "108.136.0.0/13", "130.176.0.0/12", "150.222.0.0/16",
     "15.177.0.0/18", "52.93.0.0/16", "54.239.0.0/16"]),
   ("fastly",
    ["23.235.32.0/20", "43.249.72.0/22", "103.244.50.0/24",
     "103.245.222.0/23", "103.245.224.0/24", "104.156.80.0/20",
     "140.248.64.0/18", "140.248.128.0/17", "146.75.0.0/16",
     "151.101.0.0/16", "157.52.64.0/18", "167.82.0.0/17",
     "167.82.128.0/20", "167.82.160.0/20", "167.82.224.0/20",
     "172.111.64.0/18", "185.31.16.0/22", "199.27.72.0/21",
     "199.232.0.0/16"]),
   ("akamai",
    ["23.0.0.0/12", "2.16.0.0/13", "23.192.0.0/11", "23.32.0.0/11",
     "23.64.0.0/14", "23.72.0.0/13", "96.16.0.0/15", "96.6.0.0/15",
     "104.64.0.0/10", "184.24.0.0/13", "184.50.0.0/15", "184.84.0.0/14",
     "172.224.0.0/12", "172.240.0.0/13"])]

/-! ## detectCDN (src/san-resolver.go lines 445-465) -/

/-- The innermost loop body of `detectCDN`: one CIDR string tested against a
parsed address (a `ParseCIDR` failure is skipped via `continue`). -/
def cidrContainsStr (cidr : String) (ip : IP) : Bool :=
  match parseCIDR cidr with
  | none => false
  | some net => v4netContains net ip

/-- The middle loop of `detectCDN`: does any CIDR of the entry contain the
address. -/
def entryMatches (entry : String × List String) (ip : IP) : Bool :=
  entry.2.any (fun c => cidrContainsStr c ip)

/-- The provider scan of `detectCDN` for one parsed address: first entry (in
the given iteration order) whose prefix set contains it. -/
def providerFor (ip : IP) : List (String × List String) → Option String
  | [] => none
  | entry :: rest => if entryMatches entry ip then some entry.1 else providerFor ip rest

/-- `detectCDN`, with the Go map's (randomized) iteration order passed in as
`provs`: scan the addresses in list order; unparseable ones are skipped;
return the first provider whose range contains the current address, else the
empty string. -/
def detectCDN (provs : List (String × List String)) : List String → String
  | [] => ""
  | s :: rest =>
    match parseIP s with
    | none => detectCDN provs rest
    | some ip =>
      match providerFor ip provs with
      | some name => name
      | none => detectCDN provs rest

/-- A provider match for a string address against the configured table,
exactly the test `detectCDN` applies (parse, then range containment). -/
def strMatchesEntry (entry : String × List String) (s : String) : Bool :=
  match parseIP s with
  | none => false
  | some ip => entryMatches entry ip

/-! ## Input line parsing (src/san-resolver.go lines 94-141)

The Go code matches each trimmed line against the RE2 pattern
`^(\d+\.\d+\.\d+\.\d+):(\d+)\s+\[([^\]]+)\]` via `FindStringSubmatch` and
requires four submatches.  Because each of the pattern's repeated character
classes is disjoint from the literal that follows it, greedy matching never
backtracks, so the regex is equivalent to the deterministic left-to-right
parser below; the tail of the line after the closing bracket is ignored
(the pattern is anchored only at the start). -/

/-- RE2 `\s`: space, tab, newline, form feed, carriage return. -/
def isReSpace (c : Char) : Bool :=
  c = ' ' ∨ c = '\t' ∨ c = '\n' ∨ c = '\x0c' ∨ c = '\r'

/-- Go `unicode.IsSpace` on the characters a text line can contain. -/
def isGoSpace (c : Char) : Bool :=
  c = ' ' ∨ c = '\t' ∨ c = '\n' ∨ c = '\x0b' ∨ c = '\x0c' ∨ c = '\r' ∨
    c.toNat = 133 ∨ c.toNat = 160

/-- Models Go `strings.TrimSpace`. -/
def goTrimSpace (s : String) : String :=
  String.mk (((s.data.dropWhile isGoSpace).reverse.dropWhile isGoSpace).reverse)

def expectCh (c : Char) : List Char → Option (List Char)
  | [] => none
  | x :: rest => if x = c then some rest else none

/-- Maximal nonempty digit run (`\d+`). -/
def splitDigits (cs : List Char) : Option (List Char × List Char) :=
  let p := cs.span Char.isDigit
  if p.1 = [] then none else some p

/-- The line-format contract: on success returns the three capture groups
(expected IP text, port text, domain text). -/
def parseLineRe (s : String) : Option (String × String × String) := do
  let (d1, r) ← splitDigits s.data
  let r ← expectCh '.' r
  let (d2, r) ← splitDigits r
  let r ← expectCh '.' r
  let (d3, r) ← splitDigits r
  let r ← expectCh '.' r
  let (d4, r) ← splitDigits r
  let r ← expectCh ':' r
  let (port, r) ← splitDigits r
  let ws := r.span isReSpace
  if ws.1 = [] then none else do
  let r ← expectCh '[' ws.2
  let dom := r.span (fun c => ¬ c = ']')
  if dom.1 = [] then none else do
  let _ ← expectCh ']' dom.2
  some (String.mk (d1 ++ '.' :: d2 ++ '.' :: d3 ++ '.' :: d4),
        String.mk port, String.mk dom.1)

/-- What the stdin scan loop does with one raw line: trim, silently skip
blanks, queue malformed lines for printing, or build a resolution request. -/
inductive IngestAction where
  | skip
  | malformed (line : String)
  | request (line expectedIP domain : String)
deriving DecidableEq

def ingestLine (raw : String) : IngestAction :=
  let line := goTrimSpace raw
  if line = "" then .skip
  else
    match parseLineRe line with
    | some (ip, _port, dom) => .request line ip dom
    | none => .malformed line

/-! ## Requests, results, configuration, the network oracle -/

structure DNSRequest where
  line : String
  expectedIP : String
  domain : String
deriving DecidableEq

structure DNSResult where
  line : String
  shouldPrint : Bool
  status : String
  resolvedIPs : List String
deriving DecidableEq

/-- The `DNSResult` built for a malformed line (line 132 of the source). -/
def malformedResult (line : String) : DNSResult :=
  ⟨line, true, "MALFORMED", []⟩

/-- Process-wide options (flags plus the DNS timeout, in milliseconds). -/
structure Config where
  timeoutMs : Nat
  forceGoogle : Bool
  forceCF : Bool
  noSystemDNS : Bool
  verbose : Bool
deriving DecidableEq

/-- Identity of one resolution strategy closure. -/
inductive StrategyId where
  | system | goBuiltin | google | cloudflare | quad9 | opendns
deriving DecidableEq

/-- The `strategyNames` array used for verbose tagging (line 375). -/
def strategyNames : List String :=
  ["system", "go-builtin", "google", "cloudflare", "quad9", "opendns", "fallback"]

/-- The strategy list built in lines 210-302: forced single resolvers, else
the conditional system/built-in pair followed by the four public resolvers. -/
def buildStrategies (forceGoogle forceCF noSystemDNS : Bool) : List StrategyId :=
  if forceGoogle then [.google]
  else if forceCF then [.cloudflare]
  else
    (if noSystemDNS then [] else [.system, .goBuiltin]) ++
      [.google, .cloudflare, .quad9, .opendns]

/-- Result of one strategy invocation: `err` models a non-nil error (in
which case `LookupIPAddr` returns a nil slice), `ok` a nil error with the
returned address list (possibly empty). -/
inductive StratOutcome where
  | err
  | ok (ips : List IP)
deriving DecidableEq

/-- The network, as an oracle: per-strategy forward results, the
`LookupHost` fallback result (`none` models a non-nil error), the
`LookupAddr` reverse result per address string (`none` models a non-nil
error), and whether that reverse lookup was collected before the umbrella
context expired. -/
structure DNSOracle where
  strat : StrategyId → StratOutcome
  lookupHost : Option (List String)
  revLookup : String → Option (List String)
  revDone : String → Bool

/-- Where a network call happens and the explicit deadline (in milliseconds)
of the context it is invoked under; `none` means the call carries no
deadline (`context.Background`). -/
inductive OpSite where
  | strategyCall (s : StrategyId)
  | hostLookupFallback
  | reverseLookup (ip : String)
deriving DecidableEq

structure NetOp where
  site : OpSite
  deadlineMs : Option Nat
deriving DecidableEq

/-! ## The strategy loop and fallback (src/san-resolver.go lines 304-342) -/

/-- State after the strategy loop: the `ips` and `err` variables (the values
left by the last attempted strategy), `successfulStrategy` (`none` models
-1), and the trace of network calls made.  Each strategy is invoked under
the umbrella context of 3x the configured timeout (line 206). -/
structure Resolution where
  ips : List IP
  errFlag : Bool
  successIdx : Option Nat
  trace : List NetOp
deriving DecidableEq

/-- The loop of lines 309-317: try each strategy in order, short-circuiting
on a nil error with a non-empty list.  `accIps` and `accErr` carry the `ips`
and `err` variables (overwritten by every attempt; a failing `LookupIPAddr`
returns a nil slice), so after an unsuccessful loop they hold the values
left by the last attempted strategy. -/
def runStrategies (cfg : Config) (o : DNSOracle) (i : Nat) (accIps : List IP)
    (accErr : Bool) : List StrategyId → Resolution
  | [] => ⟨accIps, accErr, none, []⟩
  | s :: rest =>
    let op : NetOp := ⟨.strategyCall s, some (3 * cfg.timeoutMs)⟩
    match o.strat s with
    | .ok ips =>
      if ips.length > 0 then ⟨ips, false, some i, [op]⟩
      else
        let res := runStrategies cfg o (i + 1) ips false rest
        ⟨res.ips, res.errFlag, res.successIdx, op :: res.trace⟩
    | .err =>
      let res := runStrategies cfg o (i + 1) [] true rest
      ⟨res.ips, res.errFlag, res.successIdx, op :: res.trace⟩

/-- The conversion loop of lines 325-329: parse each host string returned by
`LookupHost`, keeping the parseable ones. -/
def fallbackIPs (hosts : List String) : List IP := hosts.filterMap parseIP

/-- Lines 304-332: the strategy loop followed by the `LookupHost` fallback.
The fallback is attempted only when `err` is non-nil after the loop, and
`net.LookupHost` runs under `context.Background`, hence a deadline-free
network call in the trace. -/
def resolveDomain (cfg : Config) (o : DNSOracle) : Resolution :=
  let strategies := buildStrategies cfg.forceGoogle cfg.forceCF cfg.noSystemDNS
  let res := runStrategies cfg o 0 [] false strategies
  if res.errFlag then
    let tr := res.trace ++ [⟨.hostLookupFallback, none⟩]
    match o.lookupHost with
    | some hosts =>
      if hosts.length > 0 then
        ⟨res.ips ++ fallbackIPs hosts, false, some strategies.length, tr⟩
      else ⟨res.ips, false, res.successIdx, tr⟩
    | none => ⟨res.ips, true, res.successIdx, tr⟩
  else res

/-! ## Reverse lookups (src/san-resolver.go lines 392-443) -/

/-- Go `strings.TrimSuffix hostname "."`: drop one trailing dot. -/
def trimDotSuffix (s : String) : String :=
  match s.data.getLast? with
  | some '.' => String.mk s.data.dropLast
  | _ => s

/-- The hostname a completed reverse-lookup goroutine sends for an address:
empty on error or an empty answer, else the first answer with a trailing
root dot stripped (lines 408-416). -/
def hostnameFor (o : DNSOracle) (ip : String) : String :=
  match o.revLookup ip with
  | none => ""
  | some [] => ""
  | some (h :: _) => trimDotSuffix h

/-- The `reverseMap` lookup after the collection loop (lines 421-430): an
address has an entry exactly when its result was collected before the
umbrella context expired. -/
def reverseMapGet (o : DNSOracle) (ip : String) : Option String :=
  if o.revDone ip then some (hostnameFor o ip) else none

/-- The formatting loop of lines 433-440: annotate when the map has a
non-empty hostname for the address. -/
def formatIPEntry (o : DNSOracle) (ip : String) : String :=
  match reverseMapGet o ip with
  | some h => if h = "" then ip else ip ++ "[" ++ h ++ "]"
  | none => ip

/-- `performReverseLookups`: one goroutine per address, each under a context
of `WithTimeout(ctx, 2s)` (an explicit 2000 ms deadline, further capped by
the umbrella context), results keyed by address string, output formatted by
iterating the input list in order. -/
def performReverseLookupsT (o : DNSOracle) (ips : List String) : List String × List NetOp :=
  (ips.map (formatIPEntry o), ips.map (fun ip => (⟨.reverseLookup ip, some 2000⟩ : NetOp)))

/-! ## processDNSRequest (src/san-resolver.go lines 204-390) -/

/-- Models Go `strings.ToUpper` on the ASCII strings it is applied to
(provider names and strategy names). -/
def toUpperStr (s : String) : String := String.mk (s.data.map Char.toUpper)

/-- The verbose strategy tag of lines 374-379: appended when
`successfulStrategy` is in range of the fixed `strategyNames` array (note
the array is indexed with the position in the possibly shortened strategy
slice, exactly as the source does). -/
def addVia (status : String) (successIdx : Option Nat) : String :=
  match successIdx with
  | some i =>
    if i < strategyNames.length then status ++ "_VIA_" ++ toUpperStr (strategyNames.getD i "")
    else status
  | none => status

/-- `processDNSRequest`, also returning the trace of network calls the
request performed.  `provs` is the iteration order of the CDN provider map
for this run. -/
def processDNSRequestT (cfg : Config) (provs : List (String × List String))
    (o : DNSOracle) (req : DNSRequest) : DNSResult × List NetOp :=
  let res := resolveDomain cfg o
  if res.errFlag ∨ res.ips.length = 0 then
    (⟨req.line, true, "DNS_FAILURE", []⟩, res.trace)
  else
    let strs := res.ips.map IP.toStr
    let foundMatch := strs.any (fun s => s = req.expectedIP)
    if foundMatch then
      (⟨req.line, false, "MATCH", strs⟩, res.trace)
    else
      let provider := detectCDN provs strs
      let status0 := if ¬ provider = "" then "CDN_MISMATCH_" ++ toUpperStr provider else "IP_MISMATCH"
      let status1 := if cfg.verbose then addVia status0 res.successIdx else status0
      let fmt := performReverseLookupsT o strs
      (⟨req.line, true, status1, fmt.1⟩, res.trace ++ fmt.2)

def processDNSRequest (cfg : Config) (provs : List (String × List String))
    (o : DNSOracle) (req : DNSRequest) : DNSResult :=
  (processDNSRequestT cfg provs o req).1

/-! ## Output formatting and the output sink (lines 159-166, 192-199, 467-479) -/

/-- The print statement shared by the output worker, the worker's direct
fallback and the dispatcher's inline fallback. -/
def formatResult (r : DNSResult) : String :=
  if r.resolvedIPs.length > 0 then
    r.line ++ " " ++ r.status ++ " " ++ String.intercalate "," r.resolvedIPs
  else r.line ++ " " ++ r.status

/-- The emission decision applied to one result: a line exactly when the
suppression flag says to print. -/
def emitLine (r : DNSResult) : Option String :=
  if r.shouldPrint then some (formatResult r) else none

/-- `outputWorker`: drain the result queue in order, printing each result
flagged for emission; never filters otherwise, never reorders. -/
def outputWorkerRun (results : List DNSResult) : List String :=
  results.filterMap emitLine

/-! ## The dispatcher / worker / sink pipeline (src/san-resolver.go lines 112-202)

Concurrency is modelled by a scheduling oracle deciding, per input line,
which branch of each bounded-wait `select` fired: whether the request queue
accepted the request within the one-second grace period (else the producer
processes it inline), and whether the result queue accepted the outcome
within the grace period (else it is printed directly, bypassing the sink).
Whatever the schedule, each line is handled by exactly one of the paths and
each outcome receives exactly one disposition. -/

structure Sched where
  reqAccepted : Nat → Bool
  outAccepted : Nat → Bool

/-- How an outcome leaves the pipeline: through the output sink's queue, or
printed directly by the component that timed out on the queue. -/
inductive EmitPath where
  | sink
  | direct
deriving DecidableEq

inductive OutcomeSrc where
  | fromRequest
  | fromMalformed
deriving DecidableEq

/-- One outcome of the run: which input line produced it, whether it came
from a well-formed request or a malformed line, whether a pool worker or the
producer's inline fallback computed it, the result itself, and its single
emission path. -/
structure PipeOutcome where
  idx : Nat
  src : OutcomeSrc
  byWorker : Bool
  result : DNSResult
  path : EmitPath
deriving DecidableEq

/-- What the scan loop does with the line at index `idx`: skip it, route a
malformed result, or have it processed (by a worker when the request queue
accepted it in time, else inline) and its outcome routed. -/
def stepLine (cfg : Config) (provs : List (String × List String)) (sched : Sched)
    (oracle : Nat → DNSOracle) (idx : Nat) (raw : String) : Option PipeOutcome :=
  match ingestLine raw with
  | .skip => none
  | .malformed line =>
    some ⟨idx, .fromMalformed, false, malformedResult line,
          if sched.outAccepted idx then .sink else .direct⟩
  | .request line ip dom =>
    let r := processDNSRequest cfg provs (oracle idx) ⟨line, ip, dom⟩
    some ⟨idx, .fromRequest, sched.reqAccepted idx, r,
          if sched.outAccepted idx then .sink else .direct⟩

/-- The whole run over the input lines, from a starting line index. -/
def runPipelineFrom (cfg : Config) (provs : List (String × List String)) (sched : Sched)
    (oracle : Nat → DNSOracle) : Nat → List String → List PipeOutcome
  | _, [] => []
  | i, raw :: rest =>
    match stepLine cfg provs sched oracle i raw with
    | none => runPipelineFrom cfg provs sched oracle (i + 1) rest
    | some o => o :: runPipelineFrom cfg provs sched oracle (i + 1) rest

def runPipeline (cfg : Config) (provs : List (String × List String)) (sched : Sched)
    (oracle : Nat → DNSOracle) (inputs : List String) : List PipeOutcome :=
  runPipelineFrom cfg provs sched oracle 0 inputs

/-- Indices of the well-formed (accepted) requests among the input lines. -/
def wellFormedIdxFrom : Nat → List String → List Nat
  | _, [] => []
  | i, raw :: rest =>
    match ingestLine raw with
    | .request _ _ _ => i :: wellFormedIdxFrom (i + 1) rest
    | _ => wellFormedIdxFrom (i + 1) rest

/-- All emissions of a run, one per outcome flagged for printing, whichever
path it took. -/
def emissionsOf (outs : List PipeOutcome) : List String :=
  outs.filterMap (fun o => emitLine o.result)

/-! ## Auxiliary lemmas: digit strings and the IPv6 rendering round trip -/

theorem digitVal_digitCh : ∀ m < 16, digitVal (digitCh m) = m := by decide

theorem digitCh_not_special : ∀ m < 16, ¬(digitCh m = '.' ∨ digitCh m = ':') := by decide

theorem isHexDigitCh_digitCh : ∀ m < 16, isHexDigitCh (digitCh m) = true := by decide

theorem mem_natToDigits {fuel n : Nat} {c : Char} (h : c ∈ natToDigits 16 fuel n) :
    ∃ m, m < 16 ∧ c = digitCh m := by
  induction fuel generalizing n with
  | zero => simp [natToDigits] at h
  | succ fuel ih =>
    unfold natToDigits at h
    by_cases h0 : n = 0
    · simp [h0] at h
    · rw [if_neg h0] at h
      rcases List.mem_append.mp h with h | h
      · exact ih h
      · simp only [List.mem_singleton] at h
        exact ⟨n % 16, Nat.mod_lt _ (by norm_num), h⟩

theorem mem_natRepr {n : Nat} {c : Char} (h : c ∈ natRepr 16 n) :
    ∃ m, m < 16 ∧ c = digitCh m := by
  unfold natRepr at h
  by_cases h0 : n = 0
  · rw [if_pos h0] at h
    simp only [List.mem_singleton] at h
    exact ⟨0, by norm_num, h⟩
  · rw [if_neg h0] at h
    exact mem_natToDigits h

theorem digitsVal_append_singleton (base : Nat) (xs : List Char) (c : Char) :
    digitsVal base (xs ++ [c]) = digitsVal base xs * base + digitVal c := by
  unfold digitsVal
  rw [List.foldl_append]
  rfl

theorem digitsVal_natToDigits {fuel n : Nat} (h : n < 16 ^ fuel) :
    digitsVal 16 (natToDigits 16 fuel n) = n := by
  induction fuel generalizing n with
  | zero =>
    have h0 : n = 0 := by simpa using h
    simp [h0, natToDigits, digitsVal]
  | succ fuel ih =>
    by_cases h0 : n = 0
    · simp [h0, natToDigits, digitsVal]
    · unfold natToDigits
      rw [if_neg h0, digitsVal_append_singleton,
        ih (Nat.div_lt_of_lt_mul (by rwa [← pow_succ'])),
        digitVal_digitCh (n % 16) (Nat.mod_lt _ (by norm_num))]
      omega

theorem natToDigits_length_le {fuel : Nat} :
    ∀ {k n : Nat}, n < 16 ^ k → (natToDigits 16 fuel n).length ≤ k := by
  induction fuel with
  | zero => intro k n _; simp [natToDigits]
  | succ fuel ih =>
    intro k n h
    unfold natToDigits
    by_cases h0 : n = 0
    · simp [h0]
    · rw [if_neg h0]
      match k with
      | 0 => exact absurd (by simpa using h) h0
      | k + 1 =>
        have hdiv : n / 16 < 16 ^ k := Nat.div_lt_of_lt_mul (by rwa [← pow_succ'])
        have := ih hdiv
        simp only [List.length_append, List.length_singleton]
        omega

theorem natToDigits_ne_nil {n : Nat} (h0 : n ≠ 0) : natToDigits 16 8 n ≠ [] := by
  unfold natToDigits
  rw [if_neg h0]
  simp

theorem parseHexField_natRepr {g : Nat} (h : g < 65536) :
    parseHexField (natRepr 16 g) = some g := by
  by_cases h0 : g = 0
  · subst h0; rfl
  · unfold natRepr
    rw [if_neg h0]
    have hne : natToDigits 16 8 g ≠ [] := natToDigits_ne_nil h0
    have hlen : (natToDigits 16 8 g).length ≤ 4 :=
      @natToDigits_length_le 8 4 g (by norm_num; omega)
    have hall : (natToDigits 16 8 g).all isHexDigitCh = true := by
      rw [List.all_eq_true]
      intro c hc
      obtain ⟨m, hm, rfl⟩ := mem_natToDigits hc
      exact isHexDigitCh_digitCh m hm
    have hval : digitsVal 16 (natToDigits 16 8 g) = g :=
      digitsVal_natToDigits (by norm_num; omega)
    unfold parseHexField
    rw [if_neg hne, if_neg (by omega), if_neg (by simp [hall]), hval]

theorem parseFields_natRepr {gs : List Nat} (h : ∀ g ∈ gs, g < 65536) :
    parseFields (gs.map (natRepr 16)) = some gs := by
  induction gs with
  | nil => rfl
  | cons g rest ih =>
    simp only [List.map_cons, parseFields,
      parseHexField_natRepr (h g (List.mem_cons_self g rest)),
      ih (fun x hx => h x (List.mem_cons_of_mem g hx))]
    rfl

theorem splitOnCh_no_sep {sep : Char} : ∀ {p : List Char}, sep ∉ p → splitOnCh sep p = [p] := by
  intro p
  induction p with
  | nil => intro _; rfl
  | cons c rest ih =>
    intro h
    simp only [splitOnCh]
    rw [if_neg (fun hc => h (List.mem_cons.mpr (Or.inl hc.symm))),
      ih (fun hm => h (List.mem_cons_of_mem c hm))]

theorem splitOnCh_append_sep {sep : Char} {l : List Char} :
    ∀ {p : List Char}, sep ∉ p → splitOnCh sep (p ++ sep :: l) = p :: splitOnCh sep l := by
  intro p
  induction p with
  | nil => intro _; simp [splitOnCh]
  | cons c rest ih =>
    intro h
    show splitOnCh sep (c :: (rest ++ sep :: l)) = (c :: rest) :: splitOnCh sep l
    simp only [splitOnCh]
    rw [if_neg (fun hc => h (List.mem_cons.mpr (Or.inl hc.symm))),
      ih (fun hm => h (List.mem_cons_of_mem c hm))]

theorem splitOnCh_joinSep {sep : Char} :
    ∀ {pieces : List (List Char)}, pieces ≠ [] → (∀ p ∈ pieces, sep ∉ p) →
      splitOnCh sep (joinSep sep pieces) = pieces
  | [], h, _ => absurd rfl h
  | [p], _, hs => by
    show splitOnCh sep (joinSep sep [p]) = [p]
    unfold joinSep
    exact splitOnCh_no_sep (hs p (List.mem_singleton_self p))
  | p :: q :: rest, _, hs => by
    show splitOnCh sep (p ++ sep :: joinSep sep (q :: rest)) = p :: (q :: rest)
    rw [splitOnCh_append_sep (hs p (List.mem_cons_self p _)),
      splitOnCh_joinSep (List.cons_ne_nil q rest) (fun x hx => hs x (List.mem_cons_of_mem p hx))]

theorem firstSpecial_append {l : List Char} :
    ∀ {p : List Char}, (∀ c ∈ p, ¬(c = '.' ∨ c = ':')) →
      firstSpecial (p ++ l) = firstSpecial l := by
  intro p
  induction p with
  | nil => intro _; rfl
  | cons c rest ih =>
    intro h
    show firstSpecial (c :: (rest ++ l)) = firstSpecial l
    simp only [firstSpecial]
    rw [if_neg (h c (List.mem_cons_self c rest)),
      ih (fun x hx => h x (List.mem_cons_of_mem c hx))]

theorem firstSpecial_joinSep_colon {pieces : List (List Char)}
    (h2 : 2 ≤ pieces.length) (h : ∀ x ∈ pieces, ∀ c ∈ x, ¬(c = '.' ∨ c = ':')) :
    firstSpecial (joinSep ':' pieces) = some ':' := by
  rcases pieces with _ | ⟨p, _ | ⟨q, rest⟩⟩
  · simp at h2
  · simp at h2
  · show firstSpecial (p ++ ':' :: joinSep ':' (q :: rest)) = some ':'
    rw [firstSpecial_append (h p (List.mem_cons_self p _))]
    rfl

/-- The rendering of a genuine (non-mapped) IPv6 address parses back to the
same address: the program's string round trip on IPv6 values. -/
theorem parseIP_toStr_v6 {gs : List Nat} (hwf : wfGroups gs) (hnm : mappedV4 gs = none) :
    parseIP (IP.toStr (.v6 gs)) = some (.v6 gs) := by
  obtain ⟨hlen, hbound⟩ := hwf
  have hchars : ∀ p ∈ gs.map (natRepr 16), ∀ c ∈ p, ¬(c = '.' ∨ c = ':') := by
    intro p hp c hc
    obtain ⟨g, _, rfl⟩ := List.mem_map.mp hp
    obtain ⟨m, hm, rfl⟩ := mem_natRepr hc
    exact digitCh_not_special m hm
  have hnosep : ∀ p ∈ gs.map (natRepr 16), ':' ∉ p :=
    fun p hp hm => hchars p hp _ hm (Or.inr rfl)
  have hdata : (IP.toStr (.v6 gs)).data = joinSep ':' (gs.map (natRepr 16)) := by
    show IP.toChars (.v6 gs) = _
    simp [IP.toChars, hnm]
  have hlen2 : 2 ≤ (gs.map (natRepr 16)).length := by
    rw [List.length_map, hlen]; norm_num
  have hpieces : gs.map (natRepr 16) ≠ [] := by
    intro hc; rw [hc] at hlen2; simp at hlen2
  unfold parseIP
  rw [hdata, firstSpecial_joinSep_colon hlen2 hchars]
  simp only [parseIPv6Chars, splitOnCh_joinSep hpieces hnosep, List.length_map, hlen,
    parseFields_natRepr hbound, hnm]
  rfl

/-- A CIDR containment test never matches a genuine IPv6 address: the
table's prefixes are IPv4 and Go's `Contains` fails on the length mismatch. -/
theorem cidrContainsStr_pureV6 {c : String} {gs : List Nat} (h : mappedV4 gs = none) :
    cidrContainsStr c (.v6 gs) = false := by
  unfold cidrContainsStr
  cases parseCIDR c with
  | none => rfl
  | some net => simp [v4netContains, h]

theorem entryMatches_pureV6 {e : String × List String} {gs : List Nat}
    (h : mappedV4 gs = none) : entryMatches e (.v6 gs) = false := by
  unfold entryMatches
  rw [List.any_eq_false]
  intro c _
  simp [cidrContainsStr_pureV6 h]

theorem providerFor_pureV6 {provs : List (String × List String)} {gs : List Nat}
    (h : mappedV4 gs = none) : providerFor (.v6 gs) provs = none := by
  induction provs with
  | nil => rfl
  | cons e rest ih => simp [providerFor, entryMatches_pureV6 h, ih]

/-- The CDN classifier finds nothing in an address list consisting solely of
genuine IPv6 addresses, whatever the provider iteration order. -/
theorem detectCDN_pureV6 {provs : List (String × List String)} :
    ∀ {ips : List IP}, (∀ ip ∈ ips, ∃ gs, ip = .v6 gs ∧ mappedV4 gs = none ∧ wfGroups gs) →
      detectCDN provs (ips.map IP.toStr) = "" := by
  intro ips
  induction ips with
  | nil => intro _; rfl
  | cons ip rest ih =>
    intro h
    obtain ⟨gs, rfl, hnm, hwf⟩ := h _ (List.mem_cons_self _ rest)
    simp only [List.map_cons, detectCDN, parseIP_toStr_v6 hwf hnm, providerFor_pureV6 hnm]
    exact ih (fun x hx => h x (List.mem_cons_of_mem _ hx))

/-! ## Auxiliary lemmas: detectCDN characterization -/

theorem providerFor_eq_none {ip : IP} :
    ∀ {provs : List (String × List String)},
      providerFor ip provs = none ↔ ∀ e ∈ provs, entryMatches e ip = false := by
  intro provs
  induction provs with
  | nil => simp [providerFor]
  | cons e rest ih =>
    by_cases hm : entryMatches e ip
    · simp [providerFor, hm]
    · simp only [providerFor, if_neg hm, ih, List.mem_cons]
      constructor
      · intro h x hx
        rcases hx with rfl | hx
        · exact Bool.eq_false_iff.mpr hm
        · exact h x hx
      · intro h x hx
        exact h x (Or.inr hx)

theorem providerFor_eq_some {ip : IP} :
    ∀ {provs : List (String × List String)} {name : String},
      providerFor ip provs = some name →
        ∃ e ∈ provs, e.1 = name ∧ entryMatches e ip = true := by
  intro provs
  induction provs with
  | nil => intro name h; simp [providerFor] at h
  | cons e rest ih =>
    intro name h
    by_cases hm : entryMatches e ip
    · rw [providerFor, if_pos hm] at h
      exact ⟨e, List.mem_cons_self e rest, Option.some_injective _ h, hm⟩
    · rw [providerFor, if_neg hm] at h
      obtain ⟨x, hx, hname, hmt⟩ := ih h
      exact ⟨x, List.mem_cons_of_mem e hx, hname, hmt⟩

theorem detectCDN_eq_empty {provs : List (String × List String)}
    (hn : ∀ e ∈ provs, e.1 ≠ "") :
    ∀ {ss : List String},
      (detectCDN provs ss = "" ↔ ∀ s ∈ ss, ∀ e ∈ provs, strMatchesEntry e s = false) := by
  intro ss
  induction ss with
  | nil => simp [detectCDN]
  | cons s rest ih =>
    cases hp : parseIP s with
    | none =>
      simp only [detectCDN, hp, ih, List.mem_cons]
      constructor
      · intro h x hx e he
        rcases hx with rfl | hx
        · simp [strMatchesEntry, hp]
        · exact h x hx e he
      · intro h x hx e he
        exact h x (Or.inr hx) e he
    | some ip =>
      cases hq : providerFor ip provs with
      | none =>
        have hall : ∀ e ∈ provs, entryMatches e ip = false := providerFor_eq_none.mp hq
        simp only [detectCDN, hp, hq, ih, List.mem_cons]
        constructor
        · intro h x hx e he
          rcases hx with rfl | hx
          · simp [strMatchesEntry, hp, hall e he]
          · exact h x hx e he
        · intro h x hx e he
          exact h x (Or.inr hx) e he
      | some name =>
        obtain ⟨e, he, hename, hmt⟩ := providerFor_eq_some hq
        simp only [detectCDN, hp, hq]
        constructor
        · intro h
          exact absurd (hename.trans h) (hn e he)
        · intro h
          have := h s (List.mem_cons_self s rest) e he
          simp only [strMatchesEntry, hp, hmt] at this
          exact absurd this (by simp)

theorem detectCDN_matching_entry {provs : List (String × List String)} :
    ∀ {ss : List String}, detectCDN provs ss ≠ "" →
      ∃ e ∈ provs, e.1 = detectCDN provs ss ∧ ∃ s ∈ ss, strMatchesEntry e s = true := by
  intro ss
  induction ss with
  | nil => intro h; exact absurd rfl h
  | cons s rest ih =>
    intro h
    cases hp : parseIP s with
    | none =>
      simp only [detectCDN, hp] at h ⊢
      obtain ⟨e, he, hename, x, hx, hmt⟩ := ih h
      exact ⟨e, he, hename, x, List.mem_cons_of_mem s hx, hmt⟩
    | some ip =>
      cases hq : providerFor ip provs with
      | none =>
        simp only [detectCDN, hp, hq] at h ⊢
        obtain ⟨e, he, hename, x, hx, hmt⟩ := ih h
        exact ⟨e, he, hename, x, List.mem_cons_of_mem s hx, hmt⟩
      | some name =>
        obtain ⟨e, he, hename, hmt⟩ := providerFor_eq_some hq
        simp only [detectCDN, hp, hq]
        refine ⟨e, he, hename, s, List.mem_cons_self s rest, ?_⟩
        simp [strMatchesEntry, hp, hmt]

/-! ## Auxiliary lemmas: the pipeline model -/

theorem stepLine_idx {cfg : Config} {provs : List (String × List String)} {sched : Sched}
    {oracle : Nat → DNSOracle} {i : Nat} {raw : String} {p : PipeOutcome}
    (h : stepLine cfg provs sched oracle i raw = some p) : p.idx = i := by
  unfold stepLine at h
  cases hi : ingestLine raw with
  | skip => rw [hi] at h; exact absurd h (by simp)
  | malformed line =>
    rw [hi] at h
    rw [← Option.some.inj h]
  | request line ip dom =>
    rw [hi] at h
    rw [← Option.some.inj h]

theorem mem_runPipelineFrom_idx_ge {cfg : Config} {provs : List (String × List String)}
    {sched : Sched} {oracle : Nat → DNSOracle} :
    ∀ {l : List String} {i : Nat} {o : PipeOutcome},
      o ∈ runPipelineFrom cfg provs sched oracle i l → i ≤ o.idx := by
  intro l
  induction l with
  | nil => intro i o h; simp [runPipelineFrom] at h
  | cons raw rest ih =>
    intro i o h
    rw [runPipelineFrom] at h
    cases hs : stepLine cfg provs sched oracle i raw with
    | none =>
      rw [hs] at h
      exact le_trans (Nat.le_succ i) (ih h)
    | some p =>
      rw [hs] at h
      rcases List.mem_cons.mp h with rfl | h
      · exact le_of_eq (stepLine_idx hs).symm
      · exact le_trans (Nat.le_succ i) (ih h)

theorem runPipelineFrom_pairwise {cfg : Config} {provs : List (String × List String)}
    {sched : Sched} {oracle : Nat → DNSOracle} :
    ∀ {l : List String} {i : Nat},
      (runPipelineFrom cfg provs sched oracle i l).Pairwise (fun a b => a.idx < b.idx) := by
  intro l
  induction l with
  | nil => intro i; exact List.Pairwise.nil
  | cons raw rest ih =>
    intro i
    rw [runPipelineFrom]
    cases hs : stepLine cfg provs sched oracle i raw with
    | none => exact ih
    | some p =>
      refine List.Pairwise.cons ?_ ih
      intro b hb
      have h1 : p.idx = i := stepLine_idx hs
      have h2 : i + 1 ≤ b.idx := mem_runPipelineFrom_idx_ge hb
      omega

theorem runPipelineFrom_request_idx {cfg : Config} {provs : List (String × List String)}
    {sched : Sched} {oracle : Nat → DNSOracle} :
    ∀ {l : List String} {i : Nat},
      ((runPipelineFrom cfg provs sched oracle i l).filter
          (fun o => o.src == OutcomeSrc.fromRequest)).map PipeOutcome.idx =
        wellFormedIdxFrom i l := by
  intro l
  induction l with
  | nil => intro i; rfl
  | cons raw rest ih =>
    intro i
    rw [runPipelineFrom, wellFormedIdxFrom]
    cases hi : ingestLine raw with
    | skip => simp only [stepLine, hi]; exact ih
    | malformed line =>
      simp only [stepLine, hi, List.filter_cons]
      simp [ih]
    | request line ip dom =>
      simp only [stepLine, hi, List.filter_cons]
      simp [ih]

theorem emissionsOf_length :
    ∀ {outs : List PipeOutcome},
      (emissionsOf outs).length = (outs.filter (fun o => o.result.shouldPrint)).length := by
  intro outs
  induction outs with
  | nil => rfl
  | cons o rest ih =>
    by_cases hp : o.result.shouldPrint
    · have he : emitLine o.result = some (formatResult o.result) := by simp [emitLine, hp]
      simp only [emissionsOf, List.filterMap_cons, he, List.filter_cons, hp]
      simp only [emissionsOf] at ih
      simp [ih]
    · have he : emitLine o.result = none := by simp [emitLine, hp]
      simp only [emissionsOf, List.filterMap_cons, he, List.filter_cons, hp]
      simp only [emissionsOf] at ih
      simp [ih]

/-! ## Auxiliary lemmas: network call deadlines -/

theorem runStrategies_trace_deadline {cfg : Config} {o : DNSOracle} :
    ∀ {ss : List StrategyId} {i : Nat} {accIps : List IP} {accErr : Bool} {op : NetOp},
      op ∈ (runStrategies cfg o i accIps accErr ss).trace →
        op.deadlineMs = some (3 * cfg.timeoutMs) := by
  intro ss
  induction ss with
  | nil => intro i accIps accErr op h; simp [runStrategies] at h
  | cons s rest ih =>
    intro i accIps accErr op h
    cases ho : o.strat s with
    | ok ips =>
      simp only [runStrategies, ho] at h
      by_cases hl : ips.length > 0
      · rw [if_pos hl] at h
        simp only [List.mem_singleton] at h
        rw [h]
      · rw [if_neg hl] at h
        rcases List.mem_cons.mp h with rfl | h
        · rfl
        · exact ih h
    | err =>
      simp only [runStrategies, ho] at h
      rcases List.mem_cons.mp h with rfl | h
      · rfl
      · exact ih h

theorem resolveDomain_trace_deadline {cfg : Config} {o : DNSOracle} {op : NetOp}
    (h : op ∈ (resolveDomain cfg o).trace) :
    op.deadlineMs = some (3 * cfg.timeoutMs) ∨ op = ⟨.hostLookupFallback, none⟩ := by
  unfold resolveDomain at h
  set res := runStrategies cfg o 0 [] false
    (buildStrategies cfg.forceGoogle cfg.forceCF cfg.noSystemDNS) with hres
  by_cases he : res.errFlag
  · rw [if_pos he] at h
    cases hl : o.lookupHost with
    | some hosts =>
      simp only [hl] at h
      by_cases hn : hosts.length > 0
      · rw [if_pos hn] at h
        rcases List.mem_append.mp h with h | h
        · exact Or.inl (runStrategies_trace_deadline h)
        · simp only [List.mem_singleton] at h
          exact Or.inr h
      · rw [if_neg hn] at h
        rcases List.mem_append.mp h with h | h
        · exact Or.inl (runStrategies_trace_deadline h)
        · simp only [List.mem_singleton] at h
          exact Or.inr h
    | none =>
      simp only [hl] at h
      rcases List.mem_append.mp h with h | h
      · exact Or.inl (runStrategies_trace_deadline h)
      · simp only [List.mem_singleton] at h
        exact Or.inr h
  · rw [if_neg he] at h
    exact Or.inl (runStrategies_trace_deadline h)

theorem reverseLookups_trace_deadline {o : DNSOracle} {ips : List String} {op : NetOp}
    (h : op ∈ (performReverseLookupsT o ips).2) : op.deadlineMs = some 2000 := by
  unfold performReverseLookupsT at h
  obtain ⟨ip, _, rfl⟩ := List.mem_map.mp h
  rfl

theorem processDNSRequestT_trace {cfg : Config} {provs : List (String × List String)}
    {o : DNSOracle} {req : DNSRequest} {op : NetOp}
    (h : op ∈ (processDNSRequestT cfg provs o req).2) :
    op.deadlineMs = some (3 * cfg.timeoutMs) ∨ op.deadlineMs = some 2000 ∨
      op = ⟨.hostLookupFallback, none⟩ := by
  unfold processDNSRequestT at h
  by_cases h1 : (resolveDomain cfg o).errFlag = true ∨ (resolveDomain cfg o).ips.length = 0
  · rw [if_pos h1] at h
    rcases resolveDomain_trace_deadline h with h | h
    · exact Or.inl h
    · exact Or.inr (Or.inr h)
  · rw [if_neg h1] at h
    by_cases h2 : ((resolveDomain cfg o).ips.map IP.toStr).any
        (fun s => s = req.expectedIP) = true
    · rw [if_pos h2] at h
      rcases resolveDomain_trace_deadline h with h | h
      · exact Or.inl h
      · exact Or.inr (Or.inr h)
    · rw [if_neg h2] at h
      rcases List.mem_append.mp h with h | h
      · rcases resolveDomain_trace_deadline h with h | h
        · exact Or.inl h
        · exact Or.inr (Or.inr h)
      · exact Or.inr (Or.inl (reverseLookups_trace_deadline h))


/-! ## Concrete fixtures used by witnesses and counterexamples -/

def cfgDefault : Config := ⟨5000, false, false, false, false⟩

def reqEx : DNSRequest := ⟨"1.2.3.4:443 [example.com]", "1.2.3.4", "example.com"⟩

/-- Network where the system resolver answers with two addresses, one of
which is the expected one. -/
def oracleMatch : DNSOracle :=
  { strat := fun s => if s = .system then .ok [.v4 9 9 9 9, .v4 1 2 3 4] else .err
    lookupHost := none
    revLookup := fun _ => none
    revDone := fun _ => false }

/-- Network where every strategy returns a nil error with an empty address
list, while a generic host lookup would have answered. -/
def oracleEmptyOk : DNSOracle :=
  { strat := fun _ => .ok []
    lookupHost := some ["5.6.7.8"]
    revLookup := fun _ => none
    revDone := fun _ => false }

/-- Network where every strategy and the host-lookup fallback error out. -/
def oracleAllErr : DNSOracle :=
  { strat := fun _ => .err
    lookupHost := none
    revLookup := fun _ => none
    revDone := fun _ => false }

/-- Network where the system resolver answers with a single Akamai-range
address. -/
def oracleAkamai : DNSOracle :=
  { strat := fun s => if s = .system then .ok [.v4 23 32 0 1] else .err
    lookupHost := none
    revLookup := fun _ => none
    revDone := fun _ => false }

/-- Network where the system resolver answers with one genuine IPv6
address. -/
def oracleV6 : DNSOracle :=
  { strat := fun s => if s = .system then .ok [.v6 [8193, 3512, 0, 0, 0, 0, 0, 1]] else .err
    lookupHost := none
    revLookup := fun _ => none
    revDone := fun _ => false }

def ipA : String := "1.2.3.4"

def ipB : String := "5.6.7.8"

def ipsRev : List String := [ipA, ipB]

/-- Reverse-lookup oracle: the first address resolves to a hostname with a
trailing root dot, the second has no reverse record. -/
def oracleRev : DNSOracle :=
  { strat := fun _ => .err
    lookupHost := none
    revLookup := fun ip => if ip = ipA then some ["host.example."] else none
    revDone := fun _ => true }

def emptyLine : String := ""

def blankLine : String := "   "

/-- The CDN table in an iteration order that visits aws_global_accelerator
before cloudfront (Go randomizes map iteration order, so any permutation can
occur on a given run). -/
def cdnOrderSwapped : List (String × List String) :=
  [cdnProvidersList.getD 0 ("", []), cdnProvidersList.getD 2 ("", []),
   cdnProvidersList.getD 1 ("", []), cdnProvidersList.getD 3 ("", []),
   cdnProvidersList.getD 4 ("", [])]

theorem cdn_names_nonempty : ∀ e ∈ cdnProvidersList, e.1 ≠ "" := by decide

/-! ## Claim theorems -/

/-- C1: whenever resolution succeeds and the resolved address set contains
the expected IP (as a rendered string), the outcome has status MATCH with
the emit flag false, so the output sink produces no line for it, however
many other non-matching addresses were resolved alongside. -/
theorem c1_match_suppressed (cfg : Config) (provs : List (String × List String))
    (o : DNSOracle) (req : DNSRequest)
    (h1 : (resolveDomain cfg o).errFlag = false)
    (h2 : (resolveDomain cfg o).ips ≠ [])
    (h3 : req.expectedIP ∈ (resolveDomain cfg o).ips.map IP.toStr) :
    (processDNSRequest cfg provs o req).status = "MATCH" ∧
      (processDNSRequest cfg provs o req).shouldPrint = false ∧
      emitLine (processDNSRequest cfg provs o req) = none ∧
      outputWorkerRun [processDNSRequest cfg provs o req] = [] := by
  have hcond : ¬((resolveDomain cfg o).errFlag = true ∨ (resolveDomain cfg o).ips.length = 0) := by
    rw [h1]
    simp [List.length_eq_zero, h2]
  have hfound : ((resolveDomain cfg o).ips.map IP.toStr).any (fun s => s = req.expectedIP) = true := by
    rw [List.any_eq_true]
    exact ⟨req.expectedIP, h3, by simp⟩
  simp only [processDNSRequest, processDNSRequestT]
  rw [if_neg hcond, if_pos hfound]
  refine ⟨rfl, rfl, rfl, rfl⟩

/-- C1 witness: a concrete request whose resolution yields the expected
address next to a non-matching one. -/
theorem c1_match_suppressed_witness :
    (resolveDomain cfgDefault oracleMatch).errFlag = false ∧
    (resolveDomain cfgDefault oracleMatch).ips ≠ [] ∧
    "1.2.3.4" ∈ (resolveDomain cfgDefault oracleMatch).ips.map IP.toStr ∧
    ((processDNSRequest cfgDefault cdnProvidersList oracleMatch reqEx).status = "MATCH" ∧
      (processDNSRequest cfgDefault cdnProvidersList oracleMatch reqEx).shouldPrint = false ∧
      emitLine (processDNSRequest cfgDefault cdnProvidersList oracleMatch reqEx) = none ∧
      outputWorkerRun [processDNSRequest cfgDefault cdnProvidersList oracleMatch reqEx] = []) :=
  ⟨by decide, by decide, by decide,
    c1_match_suppressed cfgDefault cdnProvidersList oracleMatch reqEx
      (by decide) (by decide) (by decide)⟩

/-- C2: evaluation at the failing input.  When every configured strategy
fails by returning zero addresses with a nil error, the claim (and the
code's own comment) require one final LookupHost fallback attempt; the code
guards the fallback with a non-nil error check, so no fallback call appears
in the network trace even though the host lookup would have answered, and
the outcome is DNS_FAILURE with an empty address list. -/
theorem c2_fallback_skipped_on_empty_success :
    processDNSRequestT cfgDefault cdnProvidersList oracleEmptyOk reqEx =
      (⟨"1.2.3.4:443 [example.com]", true, "DNS_FAILURE", []⟩,
       [⟨.strategyCall .system, some 15000⟩, ⟨.strategyCall .goBuiltin, some 15000⟩,
        ⟨.strategyCall .google, some 15000⟩, ⟨.strategyCall .cloudflare, some 15000⟩,
        ⟨.strategyCall .quad9, some 15000⟩, ⟨.strategyCall .opendns, some 15000⟩]) ∧
    fallbackIPs ["5.6.7.8"] = [.v4 5 6 7 8] := by
  constructor
  · decide
  · decide

/-- C5 counterexample: a blank record is silently skipped by the scan loop
(the code executes continue before the format check), so it is never routed
into the result path as a MALFORMED outcome, contrary to the claim. -/
theorem c5_blank_skipped_counterexample :
    ingestLine emptyLine = IngestAction.skip ∧ ingestLine blankLine = IngestAction.skip := by
  constructor
  · decide
  · decide

/-- C5 amended: every record that is non-blank after trimming and fails the
line-format contract is never queued for resolution and is routed directly
into the result path tagged MALFORMED with the emit flag set, producing the
line  raw MALFORMED ; blank or whitespace-only records are silently skipped
with no outcome at all. -/
theorem c5_malformed_routed (raw : String)
    (hb : goTrimSpace raw ≠ "")
    (hm : parseLineRe (goTrimSpace raw) = none) :
    ingestLine raw = IngestAction.malformed (goTrimSpace raw) ∧
    (malformedResult (goTrimSpace raw)).shouldPrint = true ∧
    (malformedResult (goTrimSpace raw)).status = "MALFORMED" ∧
    emitLine (malformedResult (goTrimSpace raw)) =
      some (goTrimSpace raw ++ " " ++ "MALFORMED") := by
  refine ⟨?_, rfl, rfl, ?_⟩
  · unfold ingestLine
    rw [if_neg hb, hm]
  · simp [emitLine, malformedResult, formatResult]

/-- C5 amended witness: the scenario line from the specification. -/
theorem c5_malformed_routed_witness :
    goTrimSpace "garbage text" ≠ "" ∧
    parseLineRe (goTrimSpace "garbage text") = none ∧
    (ingestLine "garbage text" = IngestAction.malformed (goTrimSpace "garbage text") ∧
      (malformedResult (goTrimSpace "garbage text")).shouldPrint = true ∧
      (malformedResult (goTrimSpace "garbage text")).status = "MALFORMED" ∧
      emitLine (malformedResult (goTrimSpace "garbage text")) =
        some (goTrimSpace "garbage text" ++ " " ++ "MALFORMED")) ∧
    goTrimSpace "garbage text" ++ " " ++ "MALFORMED" = "garbage text MALFORMED" :=
  ⟨by decide, by decide, c5_malformed_routed "garbage text" (by decide) (by decide), by decide⟩

/-- C8 counterexample: on a request where every strategy errors, the code
performs the LookupHost fallback under context.Background, a network call
with no deadline, contradicting the claim that every network operation is
invoked under its own explicit deadline. -/
theorem c8_fallback_no_deadline_counterexample :
    (⟨OpSite.hostLookupFallback, none⟩ : NetOp) ∈
      (processDNSRequestT cfgDefault cdnProvidersList oracleAllErr reqEx).2 := by
  decide

/-- C8 amended: every network call a request performs carries an explicit
deadline except the LookupHost fallback, which runs under the background
context with no deadline: each strategy call runs under the umbrella context
of three times the configured timeout, each reverse lookup under a
two-second context. -/
theorem c8_deadlines_except_fallback (cfg : Config) (provs : List (String × List String))
    (o : DNSOracle) (req : DNSRequest) (op : NetOp)
    (hmem : op ∈ (processDNSRequestT cfg provs o req).2)
    (hsite : op.site ≠ OpSite.hostLookupFallback) :
    op.deadlineMs ≠ none := by
  rcases processDNSRequestT_trace hmem with h | h | h
  · rw [h]; simp
  · rw [h]; simp
  · exact absurd (congrArg NetOp.site h) hsite

/-- C8 amended witness: a strategy call op from a concrete failing run. -/
theorem c8_deadlines_except_fallback_witness :
    (⟨OpSite.strategyCall .system, some 15000⟩ : NetOp) ∈
      (processDNSRequestT cfgDefault cdnProvidersList oracleAllErr reqEx).2 ∧
    (⟨OpSite.strategyCall .system, some 15000⟩ : NetOp).site ≠ OpSite.hostLookupFallback ∧
    (⟨OpSite.strategyCall .system, some 15000⟩ : NetOp).deadlineMs ≠ none :=
  ⟨by decide, by decide,
    c8_deadlines_except_fallback cfgDefault cdnProvidersList oracleAllErr reqEx
      ⟨OpSite.strategyCall .system, some 15000⟩ (by decide) (by decide)⟩

/-- C9 counterexample: with the skip-system-resolver option set (and no
single-resolver option), the built strategy chain omits both the system
resolver and the Go built-in resolver, because strategy 2 sits inside the
same conditional as strategy 1 in the source; the claim that strategy 2
remains in the chain is false. -/
theorem c9_no_system_dns_counterexample :
    buildStrategies false false true =
      [StrategyId.google, StrategyId.cloudflare, StrategyId.quad9, StrategyId.opendns] ∧
    (buildStrategies false false true).contains StrategyId.goBuiltin = false := by
  constructor
  · decide
  · decide

/-- C9 amended: the skip-system-resolver option removes strategies 1 and 2
together (the system resolver and the Go built-in resolver); the four named
public resolvers always remain, in their fixed order. -/
theorem c9_no_system_dns_drops_first_two (noSys : Bool) :
    buildStrategies false false noSys =
      (if noSys then [] else [StrategyId.system, StrategyId.goBuiltin]) ++
        [StrategyId.google, StrategyId.cloudflare, StrategyId.quad9, StrategyId.opendns] := by
  cases noSys
  · rfl
  · rfl


/-- Shared helper: the reverse-lookup enricher yields, at each index of the
input list, either the bare address or the address annotated with the first
raw answer's hostname, trailing root dot stripped. -/
theorem performReverseLookups_entry (o : DNSOracle) (ips : List String) (i : Nat) (a : String)
    (ha : ips[i]? = some a) :
    (performReverseLookupsT o ips).1[i]? = some a ∨
      ∃ h rest, o.revLookup a = some (h :: rest) ∧
        (performReverseLookupsT o ips).1[i]? = some (a ++ "[" ++ trimDotSuffix h ++ "]") := by
  have hmap : (performReverseLookupsT o ips).1[i]? = some (formatIPEntry o a) := by
    show (ips.map (formatIPEntry o))[i]? = _
    rw [List.getElem?_map, ha]
    rfl
  by_cases hd : o.revDone a
  · cases hr : o.revLookup a with
    | none =>
      left; rw [hmap]
      simp [formatIPEntry, reverseMapGet, hd, hostnameFor, hr]
    | some hs =>
      cases hs with
      | nil =>
        left; rw [hmap]
        simp [formatIPEntry, reverseMapGet, hd, hostnameFor, hr]
      | cons hh tt =>
        by_cases hz : trimDotSuffix hh = ""
        · left; rw [hmap]
          simp [formatIPEntry, reverseMapGet, hd, hostnameFor, hr, hz]
        · right
          refine ⟨hh, tt, rfl, ?_⟩
          rw [hmap]
          simp [formatIPEntry, reverseMapGet, hd, hostnameFor, hr, hz]
  · left; rw [hmap]
    simp [formatIPEntry, reverseMapGet, hd]

/-- C7: the reverse-lookup enricher returns exactly one formatted entry per
input address, in input-list order (not lookup-completion order), each entry
being the bare address or the address annotated as address bracket hostname
bracket with the trailing root dot of the raw answer stripped. -/
theorem c7_reverse_lookup_order (o : DNSOracle) (ips : List String) :
    (performReverseLookupsT o ips).1.length = ips.length ∧
    ∀ (i : Nat) (a : String), ips[i]? = some a →
      ((performReverseLookupsT o ips).1[i]? = some a ∨
        ∃ h rest, o.revLookup a = some (h :: rest) ∧
          (performReverseLookupsT o ips).1[i]? = some (a ++ "[" ++ trimDotSuffix h ++ "]")) := by
  constructor
  · show (ips.map (formatIPEntry o)).length = ips.length
    rw [List.length_map]
  · exact fun i a ha => performReverseLookups_entry o ips i a ha

/-- C7 witness: two concrete addresses, the first annotated from a raw
answer carrying a trailing root dot, evaluated at index 0. -/
theorem c7_reverse_lookup_order_witness :
    ipsRev[0]? = some ipA ∧
    ((performReverseLookupsT oracleRev ipsRev).1[0]? = some ipA ∨
      ∃ h rest, oracleRev.revLookup ipA = some (h :: rest) ∧
        (performReverseLookupsT oracleRev ipsRev).1[0]? =
          some (ipA ++ "[" ++ trimDotSuffix h ++ "]")) :=
  ⟨by decide, (c7_reverse_lookup_order oracleRev ipsRev).2 0 ipA (by decide)⟩

/-- C6: whatever the scheduling of the bounded-queue selects and the network
behaviour, the indices of outcomes originating from well-formed requests are
exactly the indices of the well-formed input lines (hence exactly one
outcome per accepted request, none lost), no input line ever yields two
outcomes, the outcome count equals the well-formed request count, and each
outcome flagged for printing is emitted exactly once across all paths. -/
theorem c6_exactly_once_outcomes (cfg : Config) (provs : List (String × List String))
    (sched : Sched) (oracle : Nat → DNSOracle) (inputs : List String) :
    ((runPipeline cfg provs sched oracle inputs).filter
        (fun o => o.src == OutcomeSrc.fromRequest)).map PipeOutcome.idx =
      wellFormedIdxFrom 0 inputs ∧
    ((runPipeline cfg provs sched oracle inputs).map PipeOutcome.idx).Nodup ∧
    ((runPipeline cfg provs sched oracle inputs).filter
        (fun o => o.src == OutcomeSrc.fromRequest)).length =
      (wellFormedIdxFrom 0 inputs).length ∧
    (emissionsOf (runPipeline cfg provs sched oracle inputs)).length =
      ((runPipeline cfg provs sched oracle inputs).filter
          (fun o => o.result.shouldPrint)).length := by
  unfold runPipeline
  refine ⟨runPipelineFrom_request_idx, ?_, ?_, emissionsOf_length⟩
  · show List.Pairwise (fun a b => a ≠ b)
      ((runPipelineFrom cfg provs sched oracle 0 inputs).map PipeOutcome.idx)
    exact List.pairwise_map.mpr (runPipelineFrom_pairwise.imp (fun h => Nat.ne_of_lt h))
  · have h1 := @runPipelineFrom_request_idx cfg provs sched oracle inputs 0
    calc ((runPipelineFrom cfg provs sched oracle 0 inputs).filter
            (fun o => o.src == OutcomeSrc.fromRequest)).length
        = (((runPipelineFrom cfg provs sched oracle 0 inputs).filter
            (fun o => o.src == OutcomeSrc.fromRequest)).map PipeOutcome.idx).length := by
          rw [List.length_map]
      _ = (wellFormedIdxFrom 0 inputs).length := by rw [h1]

/-- C4 counterexample: the address 54.239.128.1 lies both in cloudfront's
54.239.128.0/18 and in aws_global_accelerator's 54.239.0.0/16; under the
source-order iteration the classifier returns cloudfront, under another
permutation (both reachable, Go randomizes map iteration per run) it returns
aws_global_accelerator, so two runs on the same address list can disagree. -/
theorem c4_order_dependent_counterexample :
    List.Perm cdnOrderSwapped cdnProvidersList ∧
    detectCDN cdnProvidersList ["54.239.128.1"] = "cloudfront" ∧
    detectCDN cdnOrderSwapped ["54.239.128.1"] = "aws_global_accelerator" ∧
    detectCDN cdnProvidersList ["54.239.128.1"] ≠ detectCDN cdnOrderSwapped ["54.239.128.1"] := by
  refine ⟨by decide, by decide, by decide, by decide⟩

/-- C4 amended: for a fixed provider iteration order the classifier is a
pure function (the address iteration order is fixed), and any two runs agree
on whether some provider matches and always return the name of a provider
one of whose prefixes contains some listed address; but the provider
iteration order is a randomized Go map order, so when an address lies in
prefixes of more than one provider two runs may return different provider
names. -/
theorem c4_order_invariant_matching (o1 o2 : List (String × List String)) (ss : List String)
    (h1 : o1.Perm cdnProvidersList) (h2 : o2.Perm cdnProvidersList) :
    (detectCDN o1 ss = "" ↔ detectCDN o2 ss = "") ∧
    (detectCDN o1 ss ≠ "" →
      ∃ e ∈ cdnProvidersList, e.1 = detectCDN o1 ss ∧ ∃ s ∈ ss, strMatchesEntry e s = true) := by
  have hn1 : ∀ e ∈ o1, e.1 ≠ "" := fun e he => cdn_names_nonempty e (h1.mem_iff.mp he)
  have hn2 : ∀ e ∈ o2, e.1 ≠ "" := fun e he => cdn_names_nonempty e (h2.mem_iff.mp he)
  constructor
  · rw [detectCDN_eq_empty hn1, detectCDN_eq_empty hn2]
    constructor
    · intro h s hs e he
      exact h s hs e (h1.mem_iff.mpr (h2.mem_iff.mp he))
    · intro h s hs e he
      exact h s hs e (h2.mem_iff.mpr (h1.mem_iff.mp he))
  · intro hne
    obtain ⟨e, he, hename, sx, hs, hmt⟩ := detectCDN_matching_entry hne
    exact ⟨e, h1.mem_iff.mp he, hename, sx, hs, hmt⟩

def ssAkamai : List String := ["23.32.0.1"]

/-- C4 amended witness: both orders instantiated with the table itself on a
one-address list inside an Akamai prefix. -/
theorem c4_order_invariant_matching_witness :
    List.Perm cdnProvidersList cdnProvidersList ∧
    ((detectCDN cdnProvidersList ssAkamai = "" ↔ detectCDN cdnProvidersList ssAkamai = "") ∧
      (detectCDN cdnProvidersList ssAkamai ≠ "" →
        ∃ e ∈ cdnProvidersList, e.1 = detectCDN cdnProvidersList ssAkamai ∧
          ∃ s ∈ ssAkamai, strMatchesEntry e s = true)) :=
  ⟨List.Perm.refl _,
    c4_order_invariant_matching cdnProvidersList cdnProvidersList ssAkamai
      (List.Perm.refl _) (List.Perm.refl _)⟩

/-- C3: for a successful resolution that does not contain the expected
address (non-verbose run, any iteration order of the provider map): if some
resolved address lies in a configured CDN prefix the status is CDN_MISMATCH
followed by the upper-cased name of a provider one of whose prefixes matched
a resolved address, otherwise the status is IP_MISMATCH. -/
theorem c3_mismatch_classification (cfg : Config) (provs : List (String × List String))
    (o : DNSOracle) (req : DNSRequest)
    (hperm : provs.Perm cdnProvidersList)
    (hverb : cfg.verbose = false)
    (h1 : (resolveDomain cfg o).errFlag = false)
    (h2 : (resolveDomain cfg o).ips ≠ [])
    (h3 : req.expectedIP ∉ (resolveDomain cfg o).ips.map IP.toStr) :
    ((∃ s ∈ (resolveDomain cfg o).ips.map IP.toStr,
        ∃ e ∈ cdnProvidersList, strMatchesEntry e s = true) →
      ∃ e ∈ cdnProvidersList,
        (∃ s ∈ (resolveDomain cfg o).ips.map IP.toStr, strMatchesEntry e s = true) ∧
        (processDNSRequest cfg provs o req).status = "CDN_MISMATCH_" ++ toUpperStr e.1) ∧
    ((¬ ∃ s ∈ (resolveDomain cfg o).ips.map IP.toStr,
        ∃ e ∈ cdnProvidersList, strMatchesEntry e s = true) →
      (processDNSRequest cfg provs o req).status = "IP_MISMATCH") := by
  have hn : ∀ e ∈ provs, e.1 ≠ "" := fun e he => cdn_names_nonempty e (hperm.mem_iff.mp he)
  have hcond : ¬((resolveDomain cfg o).errFlag = true ∨ (resolveDomain cfg o).ips.length = 0) := by
    rw [h1]
    simp [List.length_eq_zero, h2]
  have hfound : ((resolveDomain cfg o).ips.map IP.toStr).any
      (fun s => s = req.expectedIP) = false := by
    rw [List.any_eq_false]
    intro x hx hdec
    rw [decide_eq_true_eq] at hdec
    exact h3 (hdec ▸ hx)
  have hstatus : (processDNSRequest cfg provs o req).status =
      (if ¬ detectCDN provs ((resolveDomain cfg o).ips.map IP.toStr) = "" then
        "CDN_MISMATCH_" ++ toUpperStr (detectCDN provs ((resolveDomain cfg o).ips.map IP.toStr))
      else "IP_MISMATCH") := by
    simp only [processDNSRequest, processDNSRequestT]
    rw [if_neg hcond, if_neg (by simp [hfound])]
    simp [hverb]
  by_cases hD : detectCDN provs ((resolveDomain cfg o).ips.map IP.toStr) = ""
  · constructor
    · intro hex
      exfalso
      obtain ⟨sx, hs, e, he, hmt⟩ := hex
      have hf := (detectCDN_eq_empty hn).mp hD sx hs e (hperm.mem_iff.mpr he)
      rw [hmt] at hf
      exact absurd hf (by simp)
    · intro _
      rw [hstatus, if_neg (by simp [hD])]
  · constructor
    · intro _
      obtain ⟨e, he, hename, sx, hs, hmt⟩ := detectCDN_matching_entry hD
      refine ⟨e, hperm.mem_iff.mp he, ⟨sx, hs, hmt⟩, ?_⟩
      rw [hstatus, if_pos (by simp [hD]), hename]
    · intro hnex
      exfalso
      obtain ⟨e, he, hename, sx, hs, hmt⟩ := detectCDN_matching_entry hD
      exact hnex ⟨sx, hs, e, hperm.mem_iff.mp he, hmt⟩

/-- C3 witness: a resolution yielding one Akamai-range address different
from the expected one. -/
theorem c3_mismatch_classification_witness :
    List.Perm cdnProvidersList cdnProvidersList ∧
    cfgDefault.verbose = false ∧
    (resolveDomain cfgDefault oracleAkamai).errFlag = false ∧
    (resolveDomain cfgDefault oracleAkamai).ips ≠ [] ∧
    "1.2.3.4" ∉ (resolveDomain cfgDefault oracleAkamai).ips.map IP.toStr ∧
    (∃ s ∈ (resolveDomain cfgDefault oracleAkamai).ips.map IP.toStr,
      ∃ e ∈ cdnProvidersList, strMatchesEntry e s = true) ∧
    (∃ e ∈ cdnProvidersList,
      (∃ s ∈ (resolveDomain cfgDefault oracleAkamai).ips.map IP.toStr,
        strMatchesEntry e s = true) ∧
      (processDNSRequest cfgDefault cdnProvidersList oracleAkamai reqEx).status =
        "CDN_MISMATCH_" ++ toUpperStr e.1) := by
  have happ := c3_mismatch_classification cfgDefault cdnProvidersList oracleAkamai reqEx
    (List.Perm.refl _) rfl (by decide) (by decide) (by decide)
  exact ⟨List.Perm.refl _, rfl, by decide, by decide, by decide, by decide, happ.1 (by decide)⟩

def gsV6 : List Nat := [8193, 3512, 0, 0, 0, 0, 0, 1]

/-- C10: the CDN range table contains only IPv4 prefixes, so a genuine
(non-IPv4-mapped) IPv6 address never matches any table entry; consequently a
successful, non-matching resolution whose address list consists solely of
such IPv6 addresses classifies as plain IP_MISMATCH (never CDN_MISMATCH),
while the IPv6 addresses still appear, one entry each and in order, in the
emitted address list. -/
theorem c10_ipv6_never_cdn (cfg : Config) (provs : List (String × List String))
    (o : DNSOracle) (req : DNSRequest)
    (_hperm : provs.Perm cdnProvidersList)
    (hverb : cfg.verbose = false)
    (h1 : (resolveDomain cfg o).errFlag = false)
    (h2 : (resolveDomain cfg o).ips ≠ [])
    (hv6 : ∀ ip ∈ (resolveDomain cfg o).ips,
      ∃ gs, ip = IP.v6 gs ∧ mappedV4 gs = none ∧ wfGroups gs)
    (h3 : req.expectedIP ∉ (resolveDomain cfg o).ips.map IP.toStr) :
    (∀ gs, mappedV4 gs = none → ∀ e ∈ cdnProvidersList, entryMatches e (IP.v6 gs) = false) ∧
    detectCDN provs ((resolveDomain cfg o).ips.map IP.toStr) = "" ∧
    (processDNSRequest cfg provs o req).status = "IP_MISMATCH" ∧
    (processDNSRequest cfg provs o req).shouldPrint = true ∧
    (processDNSRequest cfg provs o req).resolvedIPs.length =
      (resolveDomain cfg o).ips.length ∧
    ∀ (i : Nat) (a : String), ((resolveDomain cfg o).ips.map IP.toStr)[i]? = some a →
      ((processDNSRequest cfg provs o req).resolvedIPs[i]? = some a ∨
        ∃ hn, (processDNSRequest cfg provs o req).resolvedIPs[i]? =
          some (a ++ "[" ++ hn ++ "]")) := by
  have htable : ∀ gs, mappedV4 gs = none →
      ∀ e ∈ cdnProvidersList, entryMatches e (IP.v6 gs) = false :=
    fun gs hg e _ => entryMatches_pureV6 hg
  have hdet : detectCDN provs ((resolveDomain cfg o).ips.map IP.toStr) = "" :=
    detectCDN_pureV6 hv6
  have hcond : ¬((resolveDomain cfg o).errFlag = true ∨ (resolveDomain cfg o).ips.length = 0) := by
    rw [h1]
    simp [List.length_eq_zero, h2]
  have hfound : ((resolveDomain cfg o).ips.map IP.toStr).any
      (fun s => s = req.expectedIP) = false := by
    rw [List.any_eq_false]
    intro x hx hdec
    rw [decide_eq_true_eq] at hdec
    exact h3 (hdec ▸ hx)
  have hres : processDNSRequest cfg provs o req =
      ⟨req.line, true, "IP_MISMATCH",
        (performReverseLookupsT o ((resolveDomain cfg o).ips.map IP.toStr)).1⟩ := by
    simp only [processDNSRequest, processDNSRequestT]
    rw [if_neg hcond, if_neg (by simp [hfound]), hdet]
    simp [hverb]
  refine ⟨htable, hdet, ?_, ?_, ?_, ?_⟩
  · rw [hres]
  · rw [hres]
  · rw [hres]
    show (performReverseLookupsT o ((resolveDomain cfg o).ips.map IP.toStr)).1.length = _
    show (((resolveDomain cfg o).ips.map IP.toStr).map (formatIPEntry o)).length = _
    rw [List.length_map, List.length_map]
  · intro i a ha
    rw [hres]
    rcases performReverseLookups_entry o _ i a ha with h | ⟨hh, tt, _, hEq⟩
    · left; exact h
    · right; exact ⟨trimDotSuffix hh, hEq⟩

/-- C10 witness: a resolution yielding one genuine IPv6 address. -/
theorem c10_ipv6_never_cdn_witness :
    List.Perm cdnProvidersList cdnProvidersList ∧
    cfgDefault.verbose = false ∧
    (resolveDomain cfgDefault oracleV6).errFlag = false ∧
    (resolveDomain cfgDefault oracleV6).ips ≠ [] ∧
    (∀ ip ∈ (resolveDomain cfgDefault oracleV6).ips,
      ∃ gs, ip = IP.v6 gs ∧ mappedV4 gs = none ∧ wfGroups gs) ∧
    "1.2.3.4" ∉ (resolveDomain cfgDefault oracleV6).ips.map IP.toStr ∧
    detectCDN cdnProvidersList ((resolveDomain cfgDefault oracleV6).ips.map IP.toStr) = "" ∧
    (processDNSRequest cfgDefault cdnProvidersList oracleV6 reqEx).status = "IP_MISMATCH" ∧
    (processDNSRequest cfgDefault cdnProvidersList oracleV6 reqEx).shouldPrint = true := by
  have hv6 : ∀ ip ∈ (resolveDomain cfgDefault oracleV6).ips,
      ∃ gs, ip = IP.v6 gs ∧ mappedV4 gs = none ∧ wfGroups gs := by
    intro ip hip
    have hips : (resolveDomain cfgDefault oracleV6).ips = [IP.v6 gsV6] := by decide
    rw [hips, List.mem_singleton] at hip
    exact ⟨gsV6, hip, by decide, by decide⟩
  have happ := c10_ipv6_never_cdn cfgDefault cdnProvidersList oracleV6 reqEx
    (List.Perm.refl _) rfl (by decide) (by decide) hv6 (by decide)
  exact ⟨List.Perm.refl _, rfl, by decide, by decide, hv6, by decide,
    happ.2.1, happ.2.2.1, happ.2.2.2.1⟩

end SanResolver
